import Mathlib

/-!
Verification of the incremental citation parser, citation resolver,
session/thread manager and streaming transport of the eval-loop repository.

Text is modelled as `List Char`; each Python function is translated into a
computable Lean definition that mirrors its control flow.
-/

set_option maxRecDepth 10000

namespace EvalLoop

/-- Events produced by `process_chunk` (src/core/qa_engine.py):
`text` mirrors `TextContent(content=...)`, `candidate` mirrors
`CitationCandidate(id=..., text=...)` where `raw` is the full matched
marker including brackets (`match.group(0)`) and `cid` is the captured
group (`match.group(1)`). -/
inductive Event where
  | text (content : List Char)
  | candidate (cid : List Char) (raw : List Char)
  deriving Repr, DecidableEq

/-- Longest prefix of decimal digits and the remainder; models the greedy
match of the regex fragment `\d+` followed by a forced literal. -/
def spanDigits : List Char → List Char × List Char
  | [] => ([], [])
  | c :: rest =>
    if c.isDigit then (c :: (spanDigits rest).1, (spanDigits rest).2)
    else ([], c :: rest)

/-- Continuation of the marker match after the literal `[AXIOM-`: a
non-empty digit run must be followed directly by `]`. -/
def matchTail (rest : List Char) : Option (List Char × List Char × List Char) :=
  match spanDigits rest with
  | ([], _) => none
  | (d :: ds, ']' :: after) =>
      some ('A' :: 'X' :: 'I' :: 'O' :: 'M' :: '-' :: d :: ds,
            '[' :: 'A' :: 'X' :: 'I' :: 'O' :: 'M' :: '-' :: ((d :: ds) ++ [']']),
            after)
  | (_ :: _, _) => none

/-- Attempt to match the regex `\[(AXIOM-\d+)\]` at the start of `s`.
On success returns (captured group 1, full match, remainder after the
match). The regex forces a `]` directly after the maximal digit run, so
greedy matching with backtracking coincides with this direct test. -/
def matchCitation (s : List Char) : Option (List Char × List Char × List Char) :=
  match s with
  | '[' :: 'A' :: 'X' :: 'I' :: 'O' :: 'M' :: '-' :: rest => matchTail rest
  | _ => none

/-- Leftmost match of `\[(AXIOM-\d+)\]` in `s`, as `re.search` computes it:
returns (text before the match, group 1, full match, text after). -/
def searchCitation : List Char → Option (List Char × List Char × List Char × List Char)
  | [] => none
  | c :: rest =>
    match matchCitation (c :: rest) with
    | some (cid, raw, after) => some ([], cid, raw, after)
    | none =>
      match searchCitation rest with
      | some (pre, cid, raw, after) => some (c :: pre, cid, raw, after)
      | none => none

/-- The `while match := re.search(...)` loop of `process_chunk`: repeatedly
emit the text before the first match and the citation candidate, then
continue on the remainder.  `fuel` bounds the iteration count; callers pass
the buffer length, which always suffices because every match consumes at
least nine characters. -/
def consumeMatches : Nat → List Char → List Event × List Char
  | 0, buffer => ([], buffer)
  | Nat.succ fuel, buffer =>
    match searchCitation buffer with
    | some (pre, cid, raw, rest) =>
      ((Event.text pre) :: (Event.candidate cid raw) :: (consumeMatches fuel rest).1,
       (consumeMatches fuel rest).2)
    | none => ([], buffer)

/-- Running state of `process_chunk`: the events emitted so far and the
retained buffer. -/
structure ParseState where
  events : List Event
  buffer : List Char
  deriving Repr, DecidableEq

/-- One iteration of the `async for chunk in chunks` loop in
`process_chunk`: append the chunk to the buffer, drain all complete
matches, then flush the remainder as text exactly when
`buffer and (("[" not in buffer) or ("]" in buffer))`. -/
def stepFragment (st : ParseState) (chunk : List Char) : ParseState :=
  let b := st.buffer ++ chunk
  let rest := (consumeMatches b.length b).2
  let evs := st.events ++ (consumeMatches b.length b).1
  if !rest.isEmpty && (!(rest.contains '[') || rest.contains ']') then
    ⟨evs ++ [Event.text rest], []⟩
  else
    ⟨evs, rest⟩

/-- State after feeding every fragment to `process_chunk`, before the
end-of-stream flush. -/
def processState (fragments : List (List Char)) : ParseState :=
  fragments.foldl stepFragment ⟨[], []⟩

/-- Full event sequence of `process_chunk` on a finite fragment stream:
the per-fragment loop followed by the final `if buffer: yield
TextContent(content=buffer)` flush. -/
def process_chunk (fragments : List (List Char)) : List Event :=
  let st := processState fragments
  st.events ++ (if st.buffer.isEmpty then [] else [Event.text st.buffer])

/-- Raw text carried by an event: the content for a text segment, the full
matched marker for a citation candidate. -/
def eventRaw : Event → List Char
  | .text c => c
  | .candidate _ raw => raw

/-- Concatenated raw text of a sequence of events. -/
def eventsRaw : List Event → List Char
  | [] => []
  | e :: es => eventRaw e ++ eventsRaw es

theorem eventsRaw_append (a b : List Event) :
    eventsRaw (a ++ b) = eventsRaw a ++ eventsRaw b := by
  induction a with
  | nil => rfl
  | cons e es ih => simp [eventsRaw, ih]

theorem spanDigits_append (s : List Char) :
    (spanDigits s).1 ++ (spanDigits s).2 = s := by
  induction s with
  | nil => rfl
  | cons c rest ih =>
    by_cases h : c.isDigit = true
    · simp [spanDigits, h, ih]
    · simp [spanDigits, h]

theorem matchTail_append {t cid raw rest : List Char}
    (h : matchTail t = some (cid, raw, rest)) :
    raw ++ rest = '[' :: 'A' :: 'X' :: 'I' :: 'O' :: 'M' :: '-' :: t := by
  unfold matchTail at h
  split at h
  · exact absurd h (by simp)
  case _ d ds after heq =>
    simp only [Option.some.injEq, Prod.mk.injEq] at h
    obtain ⟨-, h2, h3⟩ := h
    subst h2 h3
    have hs := spanDigits_append t
    rw [heq] at hs
    simp only [List.cons_append, List.append_assoc, List.nil_append] at hs ⊢
    rw [hs]
  · exact absurd h (by simp)

theorem matchCitation_append {s cid raw rest : List Char}
    (h : matchCitation s = some (cid, raw, rest)) : raw ++ rest = s := by
  unfold matchCitation at h
  split at h
  · exact matchTail_append h
  · exact absurd h (by simp)

theorem searchCitation_append {s pre cid raw rest : List Char}
    (h : searchCitation s = some (pre, cid, raw, rest)) :
    pre ++ raw ++ rest = s := by
  induction s generalizing pre cid raw rest with
  | nil => exact absurd h (by simp [searchCitation])
  | cons c cs ih =>
    unfold searchCitation at h
    split at h
    case _ cid' raw' after heq =>
      simp only [Option.some.injEq, Prod.mk.injEq] at h
      obtain ⟨h1, h2, h3, h4⟩ := h
      subst h1 h2 h3 h4
      simpa using matchCitation_append heq
    case _ =>
      split at h
      case _ pre' cid' raw' after heq2 =>
        simp only [Option.some.injEq, Prod.mk.injEq] at h
        obtain ⟨h1, h2, h3, h4⟩ := h
        subst h1 h2 h3 h4
        have := ih heq2
        simp only [List.cons_append]
        rw [this]
      case _ => exact absurd h (by simp)

theorem consumeMatches_concat (fuel : Nat) (b : List Char) :
    eventsRaw (consumeMatches fuel b).1 ++ (consumeMatches fuel b).2 = b := by
  induction fuel generalizing b with
  | zero => rfl
  | succ fuel ih =>
    unfold consumeMatches
    split
    case _ pre cid raw rest heq =>
      have h1 := searchCitation_append heq
      simp only [eventsRaw, eventRaw, List.append_assoc]
      rw [ih rest, ← List.append_assoc, h1]
    case _ => rfl

theorem stepFragment_concat (st : ParseState) (chunk : List Char) :
    eventsRaw (stepFragment st chunk).events ++ (stepFragment st chunk).buffer
      = eventsRaw st.events ++ st.buffer ++ chunk := by
  have hc := consumeMatches_concat (st.buffer ++ chunk).length (st.buffer ++ chunk)
  simp only [stepFragment]
  split
  · simp only [eventsRaw_append, eventsRaw, eventRaw, List.append_nil, List.append_assoc]
    rw [hc]
  · simp only [eventsRaw_append, List.append_assoc]
    rw [hc]

theorem processState_concat (fragments : List (List Char)) :
    ∀ st : ParseState,
      eventsRaw (fragments.foldl stepFragment st).events
          ++ (fragments.foldl stepFragment st).buffer
        = eventsRaw st.events ++ st.buffer ++ fragments.flatten := by
  induction fragments with
  | nil => intro st; simp
  | cons f fs ih =>
    intro st
    simp only [List.foldl_cons, List.flatten_cons]
    rw [ih (stepFragment st f), stepFragment_concat]
    simp [List.append_assoc]

/-- Claim C1: concatenating, in emission order, the content of every text
event and the raw matched marker of every citation candidate produced by
`process_chunk` on a fragment sequence equals the concatenation of the
fragments — no characters are created, destroyed, or reordered. -/
theorem c1_concat_invariant (F : List (List Char)) :
    eventsRaw (process_chunk F) = F.flatten := by
  have h := processState_concat F ⟨[], []⟩
  simp only [eventsRaw, List.nil_append] at h
  unfold process_chunk processState
  cases hb : (F.foldl stepFragment ⟨[], []⟩).buffer with
  | nil =>
    simp only [hb, List.isEmpty_nil, if_pos, List.append_nil]
    rw [← h, hb, List.append_nil]
  | cons c cs =>
    simp only [hb, List.isEmpty_cons, if_neg, eventsRaw_append, eventsRaw, eventRaw,
      List.append_nil, Bool.false_eq_true, not_false_iff]
    rw [← h, hb]

theorem stepFragment_buffer (st : ParseState) (chunk : List Char) :
    (stepFragment st chunk).buffer = [] ∨
      ('[' ∈ (stepFragment st chunk).buffer ∧ ']' ∉ (stepFragment st chunk).buffer) := by
  simp only [stepFragment]
  split
  · exact Or.inl rfl
  case _ hcond =>
    by_cases h1 :
        (consumeMatches (st.buffer ++ chunk).length (st.buffer ++ chunk)).2 = []
    · exact Or.inl h1
    · right
      simp at hcond ⊢
      exact hcond (by simpa using h1)

theorem processState_buffer (F : List (List Char)) :
    (processState F).buffer = [] ∨
      ('[' ∈ (processState F).buffer ∧ ']' ∉ (processState F).buffer) := by
  unfold processState
  have key : ∀ (fs : List (List Char)) (st : ParseState),
      st.buffer = [] ∨ ('[' ∈ st.buffer ∧ ']' ∉ st.buffer) →
      ((fs.foldl stepFragment st).buffer = [] ∨
        ('[' ∈ (fs.foldl stepFragment st).buffer ∧
         ']' ∉ (fs.foldl stepFragment st).buffer)) := by
    intro fs
    induction fs with
    | nil => intro st h; exact h
    | cons f rest ih => intro st _; exact ih (stepFragment st f) (stepFragment_buffer st f)
  exact key F ⟨[], []⟩ (Or.inl rfl)

/-- Claim-side predicate: `b` contains an unmatched `[`, i.e. some `[`
with no `]` anywhere after it in the buffer. -/
def hasUnmatchedB : List Char → Bool
  | [] => false
  | c :: rest => (c == '[' && !(rest.contains ']')) || hasUnmatchedB rest

/-- Claim-side predicate: `b` contains a syntactically closed bracket
span, i.e. some `[` with a `]` later in the buffer. -/
def hasClosedSpanB : List Char → Bool
  | [] => false
  | c :: rest => (c == '[' && rest.contains ']') || hasClosedSpanB rest

/-- The claim's definition of when a buffer is safe to flush: it contains
no unmatched `[` at all, or it contains a `[` that is followed later in
the buffer by a `]`. -/
def safeSpecB (b : List Char) : Bool := !hasUnmatchedB b || hasClosedSpanB b

theorem hasClosedSpanB_of_no_close {l : List Char} (h : ']' ∉ l) :
    hasClosedSpanB l = false := by
  induction l with
  | nil => rfl
  | cons c rest ih =>
    have hr : ']' ∉ rest := fun hm => h (List.mem_cons_of_mem c hm)
    simp [hasClosedSpanB, ih hr, hr]

theorem hasUnmatchedB_of_open_no_close {l : List Char}
    (h1 : '[' ∈ l) (h2 : ']' ∉ l) :
    hasUnmatchedB l = true := by
  induction l with
  | nil => exact absurd h1 (List.not_mem_nil '[')
  | cons c rest ih =>
    have hr2 : ']' ∉ rest := fun hm => h2 (List.mem_cons_of_mem c hm)
    rcases List.mem_cons.mp h1 with hc | hr
    · simp [hasUnmatchedB, ← hc, hr2]
    · simp [hasUnmatchedB, ih hr hr2]

theorem safeSpecB_of_open_no_close {l : List Char}
    (h1 : '[' ∈ l) (h2 : ']' ∉ l) :
    safeSpecB l = false := by
  simp [safeSpecB, hasUnmatchedB_of_open_no_close h1 h2, hasClosedSpanB_of_no_close h2]

/-- Claim C4 (amended): after processing each input fragment, the retained
buffer is non-empty only when it contains a `[` and no `]` anywhere; such
a buffer is not safe to flush in the claim's sense (it has an unmatched
`[` and no closed span).  The claim's further clause — that text after a
closed bracket span containing a new unmatched `[` is retained — is false
on the code: any `]` anywhere in the buffer makes the code flush the whole
buffer, including a trailing unmatched `[` (see the counterexample). -/
theorem c4_amended_flush_safety (F : List (List Char))
    (h : (processState F).buffer ≠ []) :
    '[' ∈ (processState F).buffer ∧
    ']' ∉ (processState F).buffer ∧
    safeSpecB (processState F).buffer = false := by
  rcases processState_buffer F with h0 | ⟨h1, h2⟩
  · exact absurd h0 h
  · exact ⟨h1, h2, safeSpecB_of_open_no_close h1 h2⟩

theorem c4_amended_flush_safety_witness :
    (processState ["[AX".data]).buffer ≠ [] ∧
    ('[' ∈ (processState ["[AX".data]).buffer ∧
     ']' ∉ (processState ["[AX".data]).buffer ∧
     safeSpecB (processState ["[AX".data]).buffer = false) :=
  ⟨by decide, c4_amended_flush_safety ["[AX".data] (by decide)⟩

/-- Claim C4, counterexample: the buffer `"[a]x["` contains a closed
bracket span (`[a]`) followed by a new unmatched `[`, so by the claim the
text after the closed span should be retained.  The code instead flushes
the entire buffer as one text segment and retains nothing, because a `]`
occurs somewhere in the buffer. -/
theorem c4_counterexample :
    hasClosedSpanB "[a]x[".data = true ∧ hasUnmatchedB "[a]x[".data = true ∧
    processState ["[a]x[".data] = ⟨[Event.text "[a]x[".data], []⟩ := by
  decide

/-- An axiom statement (src/core/axiom_store.py, dataclass `Axiom`):
id, subject, entity, trigger, conditions, description, category. -/
structure AxiomItem where
  id : List Char
  subject : List Char
  entity : List Char
  trigger : List Char
  conditions : List Char
  description : List Char
  category : List Char
  deriving Repr, DecidableEq

/-- Store of axioms keyed by id (src/core/axiom_store.py, `AxiomStore`).
`axioms` is the construction sequence; the dict comprehension
`{axiom.id: axiom for axiom in axioms}` keeps, for each id, the last item
carrying it. -/
structure AxiomStore where
  axioms : List AxiomItem
  deriving Repr, DecidableEq

/-- `AxiomStore.get`: dictionary lookup by id; since later duplicates
overwrite earlier ones, the last matching item wins. -/
def AxiomStore.get (s : AxiomStore) (i : List Char) : Option AxiomItem :=
  s.axioms.reverse.find? (fun a => a.id == i)

/-- Output chunks of `QAEngine.invoke_streaming`: `textContent` mirrors
`TextContent`, `citationContent` mirrors `CitationContent` which stores
the resolved axiom. -/
inductive OutEvent where
  | textContent (content : List Char)
  | citationContent (item : AxiomItem)
  deriving Repr, DecidableEq

/-- `.content` of an output chunk: `TextContent.content` is the stored
text; `CitationContent.content` is the computed field
`f"[\x7bself.axiom.id\x7d]"`. -/
def OutEvent.content : OutEvent → List Char
  | .textContent c => c
  | .citationContent a => '[' :: (a.id ++ [']'])

/-- Boolean test for a plain-text output chunk. -/
def OutEvent.isText : OutEvent → Bool
  | .textContent _ => true
  | .citationContent _ => false

/-- The candidate branch of `QAEngine.invoke_streaming` (qa_engine.py
lines 254-266): `store` is `self.axiom_store` when it is an `AxiomStore`
instance and `none` otherwise; a found axiom becomes a citation, anything
else degrades to the candidate's raw text. -/
def resolveCandidate (store : Option AxiomStore) (cid raw : List Char) : OutEvent :=
  match store with
  | none => OutEvent.textContent raw
  | some st =>
    match st.get cid with
    | some a => OutEvent.citationContent a
    | none => OutEvent.textContent raw

/-- Per-event dispatch of `invoke_streaming`: text passes through,
candidates are resolved against the store. -/
def resolveEvent (store : Option AxiomStore) : Event → OutEvent
  | .text c => .textContent c
  | .candidate cid raw => resolveCandidate store cid raw

/-- `QAEngine.invoke_streaming` with the model's fragment stream fixed:
parse the fragments with `process_chunk`, then resolve each event. -/
def invoke_streaming (store : Option AxiomStore) (fragments : List (List Char)) :
    List OutEvent :=
  (process_chunk fragments).map (resolveEvent store)

/-- `QAEngine.invoke`: drive `invoke_streaming` to completion and
concatenate the `.content` of every chunk; the return value is this bare
string (no thread handle in this revision). -/
def invoke (store : Option AxiomStore) (fragments : List (List Char)) : List Char :=
  ((invoke_streaming store fragments).map OutEvent.content).flatten

/-- Claim C5: resolving a candidate whose id is absent from the store
yields a text chunk equal to the candidate's raw marker (brackets
included) and never fails; a resolved id yields a citation carrying the
stored item. -/
theorem c5_degrade_on_unknown (st : AxiomStore) (cid raw : List Char) (a : AxiomItem) :
    (st.get cid = none →
      resolveCandidate (some st) cid raw = OutEvent.textContent raw) ∧
    (st.get cid = some a →
      resolveCandidate (some st) cid raw = OutEvent.citationContent a) := by
  constructor <;> intro h <;> simp [resolveCandidate, h]

/-- The single-axiom store used by the concrete scenarios whose id is
`AXIOM-1`, the only id shape the shipped regex can recognize. -/
def axiomAX1 : AxiomItem :=
  ⟨"AXIOM-1".data, "s".data, "e".data, "t".data, "c".data, "d".data, "g".data⟩

/-- Store holding exactly `axiomAX1`. -/
def storeAX1 : AxiomStore := ⟨[axiomAX1]⟩

theorem c5_degrade_on_unknown_witness :
    (storeAX1.get "AXIOM-9".data = none ∧
      resolveCandidate (some storeAX1) "AXIOM-9".data "[AXIOM-9]".data
        = OutEvent.textContent "[AXIOM-9]".data) ∧
    (storeAX1.get "AXIOM-1".data = some axiomAX1 ∧
      resolveCandidate (some storeAX1) "AXIOM-1".data "[AXIOM-1]".data
        = OutEvent.citationContent axiomAX1) :=
  ⟨⟨by decide,
    (c5_degrade_on_unknown storeAX1 "AXIOM-9".data "[AXIOM-9]".data axiomAX1).1 (by decide)⟩,
   ⟨by decide,
    (c5_degrade_on_unknown storeAX1 "AXIOM-1".data "[AXIOM-1]".data axiomAX1).2 (by decide)⟩⟩

/-- Claim C10: with no axiom store (constructor argument `None` or any
value that is not an `AxiomStore` instance), every parsed event is
emitted as plain text — each candidate degrades to its raw marker, no
citation chunk is ever produced, and resolution is total. -/
theorem c10_no_store_degrades (fragments : List (List Char)) :
    invoke_streaming none fragments
        = (process_chunk fragments).map (fun e => OutEvent.textContent (eventRaw e)) ∧
    (invoke_streaming none fragments).all OutEvent.isText = true := by
  have hmap : ∀ l : List Event,
      l.map (resolveEvent none) = l.map (fun e => OutEvent.textContent (eventRaw e)) := by
    intro l
    induction l with
    | nil => rfl
    | cons e es ih => cases e <;> simp [resolveEvent, resolveCandidate, eventRaw, ih]
  constructor
  · exact hmap _
  · rw [invoke_streaming, hmap]
    simp [List.all_eq_true, OutEvent.isText]

/-- Claim C2, counterexample: split the marker `[AXIOM-1]` at k = 1 with
prefix `"]"` and empty suffix.  The split run flushes the buffer `"]["`
as text (a `]` occurs in it), destroying the marker, so no candidate is
emitted; the unsplit run emits the candidate.  The claim asserts both
runs yield the same candidate. -/
theorem c2_code_bug :
    process_chunk ["][".data, "AXIOM-1]".data]
        = [Event.text "][".data, Event.text "AXIOM-1]".data] ∧
    process_chunk ["][AXIOM-1]".data]
        = [Event.text "]".data, Event.candidate "AXIOM-1".data "[AXIOM-1]".data] := by
  decide

/-- The axiom with id `A-001` required by the scenario of claim C3. -/
def axiomA001 : AxiomItem :=
  ⟨"A-001".data, "s".data, "e".data, "t".data, "c".data, "desc".data, "g".data⟩

/-- Store holding exactly `axiomA001`. -/
def storeA001 : AxiomStore := ⟨[axiomA001]⟩

/-- Claim C3: the shipped regex is `\[(AXIOM-\d+)\]`, so the `A` prefix of
the claimed scenario is never recognized: on fragments
`["Hello [A", "-001]", " world"]` with a store containing `A-001`, the
code emits `[Text("Hello [A-001]"), Text(" world")]` — no citation —
instead of the claimed `[Text("Hello "), Citation(A-001), Text(" world")]`. -/
theorem c3_code_bug :
    invoke_streaming (some storeA001) ["Hello [A".data, "-001]".data, " world".data]
      = [OutEvent.textContent "Hello [A-001]".data,
         OutEvent.textContent " world".data] := by
  decide

/-- Claim C6: `invoke` does concatenate the `.content` of every streamed
chunk (first conjunct evaluates it on the repository's own test input),
and a resolved citation's content is `"[" + id + "]"` (second conjunct) —
but the function returns this bare string only, with no thread handle,
contradicting the claim and the repository's tests, which unpack
`result, thread_id = await qa_engine.invoke(...)`. -/
theorem c6_code_bug :
    invoke (some storeA001)
        ["This ".data, "is ".data, "a ".data, "test ".data, "[A-001]".data]
      = "This is a test [A-001]".data ∧
    OutEvent.content (OutEvent.citationContent axiomA001) = "[A-001]".data := by
  decide

/-- Claim C9: after the fragment source is exhausted, any remaining
non-empty buffer is flushed as one final text segment even when it looks
like an incomplete marker: concretely, `["foo", "[AX"]` yields exactly
`[Text("foo"), Text("[AX")]`; in general the event stream is the loop
events followed by exactly that one text segment. -/
theorem c9_final_flush :
    process_chunk ["foo".data, "[AX".data]
        = [Event.text "foo".data, Event.text "[AX".data] ∧
    ∀ F : List (List Char), (processState F).buffer ≠ [] →
      process_chunk F = (processState F).events ++ [Event.text (processState F).buffer] := by
  constructor
  · decide
  · intro F h
    simp [process_chunk, h]

theorem c9_final_flush_witness :
    (processState ["foo".data, "[AX".data]).buffer ≠ [] ∧
    process_chunk ["foo".data, "[AX".data]
      = (processState ["foo".data, "[AX".data]).events
          ++ [Event.text (processState ["foo".data, "[AX".data]).buffer] :=
  ⟨by decide, c9_final_flush.2 ["foo".data, "[AX".data] (by decide)⟩

/-- Modelled from the spec: the session/thread manager (spec §4.3).  The
implementation is referenced by src/api/generate.py (`UserSessionId`,
`QAEngine.reset_thread`) but is not under src; only its callers and tests
are.  Session ids are an opaque type `σ` with decidable equality; thread
handles are modelled as naturals drawn from a freshness counter `next`,
standing in for globally-unique provider handles.  `table` is the
`sessionId -> threadHandle` map. -/
structure SessionManager (σ : Type) where
  table : List (σ × Nat)
  next : Nat
  deriving Repr, DecidableEq

/-- Lookup of a session id in the mapping table. -/
def findThread {σ : Type} [DecidableEq σ] : List (σ × Nat) → σ → Option Nat
  | [], _ => none
  | (k, v) :: rest, sid => if k = sid then some v else findThread rest sid

/-- Removal of every entry for a session id from the mapping table. -/
def removeThread {σ : Type} [DecidableEq σ] : List (σ × Nat) → σ → List (σ × Nat)
  | [], _ => []
  | (k, v) :: rest, sid =>
    if k = sid then removeThread rest sid else (k, v) :: removeThread rest sid

/-- Modelled from the spec: `resolveThread(sessionId)` — return the mapped
handle unchanged when one exists; otherwise allocate a fresh handle,
store the mapping, and return it. -/
def SessionManager.resolveThread {σ : Type} [DecidableEq σ]
    (m : SessionManager σ) (sid : σ) : Nat × SessionManager σ :=
  match findThread m.table sid with
  | some t => (t, m)
  | none => (m.next, ⟨(sid, m.next) :: m.table, m.next + 1⟩)

/-- Modelled from the spec: `reset(sessionId)` — remove the mapping for
that id only; resetting an id with no mapping leaves the manager
unchanged. -/
def SessionManager.reset {σ : Type} [DecidableEq σ]
    (m : SessionManager σ) (sid : σ) : SessionManager σ :=
  ⟨removeThread m.table sid, m.next⟩

/-- Every handle stored in the table was drawn from the counter, hence is
below `next`; true of the empty manager and preserved by both
operations. -/
def SessionManager.Wf {σ : Type} (m : SessionManager σ) : Prop :=
  ∀ p ∈ m.table, p.2 < m.next

theorem findThread_remove {σ : Type} [DecidableEq σ] (l : List (σ × Nat)) (sid : σ) :
    findThread (removeThread l sid) sid = none := by
  induction l with
  | nil => rfl
  | cons p rest ih =>
    obtain ⟨k, v⟩ := p
    by_cases h : k = sid
    · simp [removeThread, h, ih]
    · simp [removeThread, findThread, h, ih]

theorem removeThread_of_find_none {σ : Type} [DecidableEq σ]
    {l : List (σ × Nat)} {sid : σ} (h : findThread l sid = none) :
    removeThread l sid = l := by
  induction l with
  | nil => rfl
  | cons p rest ih =>
    obtain ⟨k, v⟩ := p
    by_cases hk : k = sid
    · simp [findThread, hk] at h
    · simp only [findThread, hk, if_neg, ite_false] at h
      simp [removeThread, hk, ih h]

theorem findThread_lt_next {σ : Type} [DecidableEq σ]
    {m : SessionManager σ} {sid : σ} {t : Nat}
    (hw : m.Wf) (h : findThread m.table sid = some t) : t < m.next := by
  have key : ∀ l : List (σ × Nat), (∀ p ∈ l, p.2 < m.next) →
      findThread l sid = some t → t < m.next := by
    intro l
    induction l with
    | nil => intro _ hf; exact absurd hf (by simp [findThread])
    | cons p rest ih =>
      intro hall hf
      obtain ⟨k, v⟩ := p
      by_cases hk : k = sid
      · simp only [findThread, hk, if_pos, Option.some.injEq] at hf
        exact hf ▸ hall (k, v) (List.mem_cons_self _ _)
      · simp only [findThread, hk, ite_false] at hf
        exact ih (fun p hp => hall p (List.mem_cons_of_mem _ hp)) hf
  exact key m.table hw h

/-- Claim C7 (spec-modelled): for a well-formed manager, `resolveThread`
called twice on the same session id without an intervening `reset`
returns the identical handle; after a `reset` the next `resolveThread`
returns a different handle; and `reset` of an unmapped session id leaves
the manager unchanged (a no-op, never an error). -/
theorem c7_session_idempotence {σ : Type} [DecidableEq σ]
    (m : SessionManager σ) (sid : σ) (hw : m.Wf) :
    (((m.resolveThread sid).2.resolveThread sid).1 = (m.resolveThread sid).1) ∧
    ((((m.resolveThread sid).2.reset sid).resolveThread sid).1
        ≠ (m.resolveThread sid).1) ∧
    (findThread m.table sid = none → m.reset sid = m) := by
  refine ⟨?_, ?_, ?_⟩
  · cases hf : findThread m.table sid with
    | some t => simp [SessionManager.resolveThread, hf]
    | none => simp [SessionManager.resolveThread, hf, findThread]
  · cases hf : findThread m.table sid with
    | some t =>
      have ht : t < m.next := findThread_lt_next hw hf
      simp [SessionManager.resolveThread, SessionManager.reset, hf, findThread_remove]
      omega
    | none =>
      simp [SessionManager.resolveThread, SessionManager.reset, hf, findThread_remove]
  · intro hf
    simp [SessionManager.reset, removeThread_of_find_none hf]

theorem c7_session_idempotence_witness :
    (SessionManager.Wf (⟨[], 0⟩ : SessionManager Nat)) ∧
    ((((⟨[], 0⟩ : SessionManager Nat).resolveThread 7).2.resolveThread 7).1
        = ((⟨[], 0⟩ : SessionManager Nat).resolveThread 7).1) ∧
    (((((⟨[], 0⟩ : SessionManager Nat).resolveThread 7).2.reset 7).resolveThread 7).1
        ≠ ((⟨[], 0⟩ : SessionManager Nat).resolveThread 7).1) ∧
    (findThread (⟨[], 0⟩ : SessionManager Nat).table 7 = none →
      (⟨[], 0⟩ : SessionManager Nat).reset 7 = ⟨[], 0⟩) :=
  ⟨fun p hp => absurd hp (List.not_mem_nil p),
   c7_session_idempotence (⟨[], 0⟩ : SessionManager Nat) 7
     (fun p hp => absurd hp (List.not_mem_nil p))⟩

/-- Lowercase hexadecimal digit, as both serializers emit it. -/
def hexDigit (n : Nat) : Char :=
  if n < 10 then Char.ofNat ('0'.toNat + n) else Char.ofNat ('a'.toNat + n - 10)

/-- Four-digit lowercase hexadecimal rendering of a code unit. -/
def hex4 (n : Nat) : String :=
  String.mk [hexDigit (n / 4096 % 16), hexDigit (n / 256 % 16),
             hexDigit (n / 16 % 16), hexDigit (n % 16)]

/-- String-escaping of pydantic's `model_dump_json()`: quote, backslash
and control characters are escaped (shorthands for the common ones),
everything else — including non-ASCII — is emitted verbatim. -/
def pdEscapeChar (c : Char) : String :=
  if c = '"' then "\\\""
  else if c = '\\' then "\\\\"
  else if c = '\x08' then "\\b"
  else if c = '\x09' then "\\t"
  else if c = '\x0a' then "\\n"
  else if c = '\x0c' then "\\f"
  else if c = '\x0d' then "\\r"
  else if c.toNat < 32 then "\\u" ++ hex4 c.toNat
  else String.singleton c

/-- pydantic escaping lifted to strings. -/
def pdEscape (s : String) : String := String.join (s.data.map pdEscapeChar)

/-- String-escaping of `json.dumps` with its default `ensure_ascii=True`:
like the pydantic escaping but additionally every character outside
U+0020..U+007E becomes a `\u` escape, with surrogate pairs beyond the
basic plane. -/
def pyEscapeChar (c : Char) : String :=
  if c = '"' then "\\\""
  else if c = '\\' then "\\\\"
  else if c = '\x08' then "\\b"
  else if c = '\x09' then "\\t"
  else if c = '\x0a' then "\\n"
  else if c = '\x0c' then "\\f"
  else if c = '\x0d' then "\\r"
  else if c.toNat < 32 then "\\u" ++ hex4 c.toNat
  else if c.toNat < 127 then String.singleton c
  else if c.toNat < 65536 then "\\u" ++ hex4 c.toNat
  else "\\u" ++ hex4 (55296 + (c.toNat - 65536) / 1024)
         ++ "\\u" ++ hex4 (56320 + (c.toNat - 65536) % 1024)

/-- `json.dumps` escaping lifted to strings. -/
def pyEscape (s : String) : String := String.join (s.data.map pyEscapeChar)

/-- The three chunk shapes the `/generate` endpoint handles
(src/api/generate.py, match arms of `stream()`): plain text, an axiom
citation carrying the resolved item's id and description, and a reality
citation likewise. -/
inductive Chunk where
  | textContent (content : String)
  | axiomCitation (cid description : String)
  | realityCitation (cid description : String)
  deriving Repr, DecidableEq

/-- `response.model_dump_json()` for the response models of
src/api/generate.py: compact separators, declared field order with
`type` first. -/
def serializeChunk : Chunk → String
  | .textContent c =>
      "\x7b\"type\":\"text\",\"text\":\"" ++ pdEscape c ++ "\"\x7d"
  | .axiomCitation i d =>
      "\x7b\"type\":\"axiom_citation\",\"id\":\"" ++ pdEscape i
        ++ "\",\"description\":\"" ++ pdEscape d ++ "\"\x7d"
  | .realityCitation i d =>
      "\x7b\"type\":\"reality_citation\",\"id\":\"" ++ pdEscape i
        ++ "\",\"description\":\"" ++ pdEscape d ++ "\"\x7d"

/-- The terminal error line of the `stream()` generator:
`json.dumps` of the error dict with json.dumps default separators (a
space after each colon and comma), plus the newline added by the
f-string. -/
def errLine (msg : String) : String :=
  "\x7b\"type\": \"error\", \"message\": \"" ++ pyEscape msg ++ "\"\x7d\n"

/-- One step of the model-collaborator stream as the `stream()` generator
observes it: either the next chunk arrives, or the underlying iterator
raises with the given message. -/
inductive StreamItem where
  | chunk (c : Chunk)
  | raiseErr (msg : String)
  deriving Repr, DecidableEq

/-- The `stream()` generator of src/api/generate.py over a trace of its
chunk source: NDJSON lines are yielded until the source is exhausted or
raises; on a raise the error line is yielded as the final chunk and the
exception re-raised (the second component).  Items after a raise are
unreachable. -/
def streamRun : List StreamItem → List String × Option String
  | [] => ([], none)
  | .chunk c :: rest =>
      ((serializeChunk c ++ "\n") :: (streamRun rest).1, (streamRun rest).2)
  | .raiseErr m :: _ => ([errLine m], some m)

/-- Claim C8 (amended): if the chunk source raises mid-stream, the
endpoint forwards every line already produced up to the failure point,
then emits exactly one terminal error line — the json.dumps rendering of
the type/message dict with json.dumps default separators, i.e. a space
after each colon and comma, unlike the compact form the claim quotes —
terminated by a newline, after which the stream ends and the original
exception is re-raised to the caller. -/
theorem c8_amended_error_propagation (cs : List Chunk) (msg : String)
    (rest : List StreamItem) :
    streamRun (cs.map StreamItem.chunk ++ StreamItem.raiseErr msg :: rest)
      = (cs.map (fun c => serializeChunk c ++ "\n") ++ [errLine msg], some msg) := by
  induction cs with
  | nil => rfl
  | cons c cs ih => simp [streamRun, ih]

/-- Claim C8, counterexample: on a failure with message `boom` the code
emits the line with json.dumps default separators — a space after each
colon and comma — which differs from the compact terminal line the claim
asserts. -/
theorem c8_counterexample :
    (streamRun [StreamItem.raiseErr "boom"]).1
        = ["\x7b\"type\": \"error\", \"message\": \"boom\"\x7d\n"] ∧
    (streamRun [StreamItem.raiseErr "boom"]).1
        ≠ ["\x7b\"type\":\"error\",\"message\":\"boom\"\x7d\n"] := by
  constructor
  · decide
  · decide

end EvalLoop
